import Mathlib

/-!
Verification of the notification delivery and retry subsystem of
kurbezz/twitch-notifications.

The durable table `notification_queue` and its defaults are embedded from
`src/backend/migrations/006_add_notification_queue.sql` (column defaults,
the after-insert TTL trigger, and the foreign-key `ON DELETE SET NULL`
behaviour of `notification_log_id`).  The Queue Store operations
(`ClaimBatch`, `AckSuccess`, `AckFailure`, `SweepExpired`, `ReclaimStale`)
and the `Backoff` policy are not present in the repository snapshot; they
are modelled from the specification, as noted on each definition.

Timestamps and durations are natural numbers (seconds).
-/

namespace TwitchNotifications

/-- Task status, from the migration comment on `notification_queue.status`:
`'pending', 'processing', 'succeeded', 'dead'`. -/
inductive Status where
  | pending
  | processing
  | succeeded
  | dead
  deriving DecidableEq, Repr

/-- One row of the `notification_queue` table
(`src/backend/migrations/006_add_notification_queue.sql`). -/
structure Task where
  notification_log_id : Option Nat
  user_id : Nat
  notification_type : String
  content_json : String
  message : String
  destination_type : String
  destination_id : String
  webhook_url : Option String
  attempts : Nat
  max_attempts : Nat
  next_attempt_at : Nat
  expires_at : Option Nat
  last_error : Option String
  status : Status
  created_at : Nat
  updated_at : Nat
  deriving DecidableEq, Repr

/-- The queue table: association list from row id to row. -/
abbrev Store := List (Nat × Task)

/-- Look a row up by id (first match). -/
def findTask (id : Nat) : Store → Option Task
  | [] => none
  | (i, t) :: rest => if i = id then some t else findTask id rest

/-- Replace the row with the given id. -/
def setTask (id : Nat) (t' : Task) : Store → Store
  | [] => []
  | (i, t) :: rest =>
    if i = id then (i, t') :: setTask id t' rest
    else (i, t) :: setTask id t' rest

/-- The ids present in the table. -/
def ids (s : Store) : List Nat := s.map Prod.fst

/-- An insert draft: the columns a producer may supply.  Columns with a SQL
default (`max_attempts DEFAULT 5`, `next_attempt_at DEFAULT
CURRENT_TIMESTAMP`, nullable `expires_at`) are optional. -/
structure Draft where
  notification_log_id : Option Nat
  user_id : Nat
  notification_type : String
  content_json : String
  message : String
  destination_type : String
  destination_id : String
  webhook_url : Option String
  max_attempts : Option Nat
  next_attempt_at : Option Nat
  expires_at : Option Nat
  deriving DecidableEq, Repr

/-- The default TTL actually assigned by the migration's trigger:
`datetime(NEW.created_at, '+5 minutes')`, i.e. 5 minutes. -/
def default_ttl : Nat := 5 * 60

/-- The TTL stated by the migration's header comment ("defaults
`expires_at` to `created_at + 1 hour`"): 1 hour. -/
def header_comment_ttl : Nat := 60 * 60

/-- The row produced by an INSERT into `notification_queue` before triggers
run, using the column defaults of the migration: `attempts DEFAULT 0`,
`max_attempts DEFAULT 5`, `next_attempt_at DEFAULT CURRENT_TIMESTAMP`,
`status DEFAULT 'pending'`, `created_at`/`updated_at` `DEFAULT
CURRENT_TIMESTAMP`, `last_error` NULL. -/
def insertRow (d : Draft) (now : Nat) : Task :=
  { notification_log_id := d.notification_log_id
    user_id := d.user_id
    notification_type := d.notification_type
    content_json := d.content_json
    message := d.message
    destination_type := d.destination_type
    destination_id := d.destination_id
    webhook_url := d.webhook_url
    attempts := 0
    max_attempts := d.max_attempts.getD 5
    next_attempt_at := d.next_attempt_at.getD now
    expires_at := d.expires_at
    last_error := none
    status := Status.pending
    created_at := now
    updated_at := now }

/-- The after-insert trigger
`notification_queue_set_expires_at_after_insert`: when the new row's
`expires_at` is NULL, set it to `datetime(NEW.created_at, '+5 minutes')`. -/
def set_expires_at_trigger (t : Task) : Task :=
  match t.expires_at with
  | none => { t with expires_at := some (t.created_at + default_ttl) }
  | some _ => t

/-- `Enqueue`: insert a new row with a fresh id; the stored row is the
INSERT with column defaults followed by the after-insert TTL trigger, as
the migration defines it. -/
def enqueue (id : Nat) (d : Draft) (now : Nat) (s : Store) : Store :=
  (id, set_expires_at_trigger (insertRow d now)) :: s

/-- Apply a per-row update to every row, keeping ids. -/
def mapRows (h : Task → Task) (s : Store) : Store :=
  s.map (fun p => (p.1, h p.2))

/-- Effect of `ON DELETE SET NULL` on one row: clear the reference to the
deleted `notification_history` row, touch nothing else. -/
def clearLogRef (logId : Nat) (t : Task) : Task :=
  if t.notification_log_id = some logId
  then { t with notification_log_id := none }
  else t

/-- The foreign key `notification_log_id TEXT REFERENCES
notification_history(id) ON DELETE SET NULL`: deleting a history row
clears, in every queue row that referenced it, only that reference. -/
def onDeleteLogEntry (logId : Nat) (s : Store) : Store :=
  mapRows (clearLogRef logId) s

/-- Modelled from the spec: the configured backoff base (the worker code is
not in the repository snapshot; the spec gives `min(base * 2^attempts, cap)`
with base and cap as configuration). -/
def backoff_base : Nat := 30

/-- Modelled from the spec: the configured backoff cap. -/
def backoff_cap : Nat := 3600

/-- Modelled from the spec: the Backoff Policy, a pure function
`attempts -> duration`, `min(base * 2^attempts, cap)`. -/
def backoff (n : Nat) : Nat := min (backoff_base * 2 ^ n) backoff_cap

/-- A row is expired at `now` when its `expires_at` is set and has passed
(migration comment: "if set and <= CURRENT_TIMESTAMP the worker should
treat the task as expired"). -/
def expired (now : Nat) (t : Task) : Bool :=
  match t.expires_at with
  | none => false
  | some e => decide (e ≤ now)

/-- Eligibility for claiming, from the spec's `ClaimBatch` selection:
status=pending AND next_attempt_at <= now AND (expires_at IS NULL OR
expires_at > now). -/
def eligible (now : Nat) (t : Task) : Bool :=
  decide (t.status = Status.pending) && decide (t.next_attempt_at ≤ now)
    && !expired now t

/-- The row as stored after a successful claim: processing, `updated_at`
bumped. -/
def claimed (now : Nat) (t : Task) : Task :=
  { t with status := Status.processing, updated_at := now }

/-- Modelled from the spec: the per-row compare-and-swap unit of
`ClaimBatch` (Queue Store code absent from the snapshot).  The transition
to processing happens only if the row is still pending (and due, not
expired) at update time; returns whether this claimer won the row. -/
def claimRow (now : Nat) (id : Nat) (s : Store) : Bool × Store :=
  match findTask id s with
  | none => (false, s)
  | some t =>
    if eligible now t then (true, setTask id (claimed now t) s)
    else (false, s)

/-- Modelled from the spec: `ClaimBatch(now, limit)` — atomically select up
to `limit` rows with status=pending, `next_attempt_at ≤ now` and not
expired, transition them to processing, and return them. -/
def claimBatch (now : Nat) : Nat → Store → List (Nat × Task) × Store
  | _, [] => ([], [])
  | 0, s => ([], s)
  | limit + 1, (i, t) :: rest =>
    if eligible now t then
      let r := claimBatch now limit rest
      ((i, claimed now t) :: r.1, (i, claimed now t) :: r.2)
    else
      let r := claimBatch now (limit + 1) rest
      (r.1, (i, t) :: r.2)

/-- Modelled from the spec: `AckSuccess(id)` — status of the claimed row
becomes succeeded. -/
def ackSuccess (id now : Nat) (s : Store) : Store :=
  match findTask id s with
  | none => s
  | some t =>
    if t.status = Status.processing then
      setTask id { t with status := Status.succeeded, updated_at := now } s
    else s

/-- Outcome classification of a failed dispatch, from the Dispatcher
contract: TransientFailure or PermanentFailure. -/
inductive Classification where
  | transient
  | permanent
  deriving DecidableEq, Repr

/-- Modelled from the spec: `AckFailure(id, error, classification)` — if
classification is permanent, or attempts+1 >= max_attempts, status becomes
dead; otherwise attempts += 1, next_attempt_at = now + Backoff(attempts)
(Backoff evaluated at the incremented attempts), status back to pending. -/
def ackFailure (id : Nat) (err : String) (cls : Classification) (now : Nat)
    (s : Store) : Store :=
  match findTask id s with
  | none => s
  | some t =>
    if t.status = Status.processing then
      if cls = Classification.permanent ∨ t.max_attempts ≤ t.attempts + 1 then
        setTask id { t with status := Status.dead, last_error := some err,
                            updated_at := now } s
      else
        setTask id { t with attempts := t.attempts + 1,
                            next_attempt_at := now + backoff (t.attempts + 1),
                            status := Status.pending, last_error := some err,
                            updated_at := now } s
    else s

/-- Effect of `SweepExpired` on one row: a pending or processing row past
its `expires_at` becomes dead with reason "expired". -/
def sweepTask (now : Nat) (t : Task) : Task :=
  if (t.status = Status.pending ∨ t.status = Status.processing)
      ∧ expired now t = true then
    { t with status := Status.dead, last_error := some "expired",
             updated_at := now }
  else t

/-- Modelled from the spec: `SweepExpired(now)` — bulk-transition
pending/processing rows whose `expires_at <= now` to dead with reason
"expired", without invoking the Dispatcher. -/
def sweepExpired (now : Nat) (s : Store) : Store :=
  mapRows (sweepTask now) s

/-- Effect of `ReclaimStale` on one row: a row stuck in processing longer
than the threshold returns to pending, attempts untouched. -/
def reclaimTask (now threshold : Nat) (t : Task) : Task :=
  if t.status = Status.processing ∧ t.updated_at + threshold ≤ now then
    { t with status := Status.pending, updated_at := now }
  else t

/-- Modelled from the spec: `ReclaimStale(now, threshold)` — rows stuck in
processing longer than the threshold return to pending without incrementing
attempts. -/
def reclaimStale (now threshold : Nat) (s : Store) : Store :=
  mapRows (reclaimTask now threshold) s

/-- Modelled from the spec: the tasks a worker tick hands to
`Dispatcher.Send` — after `SweepExpired` and `ReclaimStale`, exactly the
batch returned by `ClaimBatch`. -/
def tickDispatches (now threshold limit : Nat) (s : Store) :
    List (Nat × Task) :=
  (claimBatch now limit (reclaimStale now threshold (sweepExpired now s))).1

/-- Modelled from the spec: an interleaved execution of the per-row
compare-and-swap steps of two concurrent claimers.  Each step names the
claimer (`false`/`true`) and the row id it attempts; the result collects
each claimer's successfully claimed ids. -/
def runTrace (now : Nat) : List (Bool × Nat) → Store → List Nat × List Nat × Store
  | [], s => ([], [], s)
  | (w, id) :: steps, s =>
    let c := claimRow now id s
    let r := runTrace now steps c.2
    if c.1 then
      if w then (r.1, id :: r.2.1, r.2.2) else (id :: r.1, r.2.1, r.2.2)
    else r

/-- The stores reachable from the empty table through the Queue Store
operations (plus the foreign-key clearing that a history delete causes).
Per the spec, tasks are mutated exclusively through these operations. -/
inductive Reachable : Store → Prop where
  | empty : Reachable []
  | enqueue (id : Nat) (d : Draft) (now : Nat) {s : Store} :
      Reachable s → Reachable (enqueue id d now s)
  | claimBatch (now limit : Nat) {s : Store} :
      Reachable s → Reachable (claimBatch now limit s).2
  | claimRow (now id : Nat) {s : Store} :
      Reachable s → Reachable (claimRow now id s).2
  | ackSuccess (id now : Nat) {s : Store} :
      Reachable s → Reachable (ackSuccess id now s)
  | ackFailure (id : Nat) (err : String) (cls : Classification) (now : Nat)
      {s : Store} : Reachable s → Reachable (ackFailure id err cls now s)
  | sweepExpired (now : Nat) {s : Store} :
      Reachable s → Reachable (sweepExpired now s)
  | reclaimStale (now threshold : Nat) {s : Store} :
      Reachable s → Reachable (reclaimStale now threshold s)
  | onDeleteLogEntry (logId : Nat) {s : Store} :
      Reachable s → Reachable (onDeleteLogEntry logId s)

/-- The attempts budget invariant: every row satisfies
`attempts ≤ max_attempts`. -/
def AttInv (s : Store) : Prop :=
  ∀ p ∈ s, (Prod.snd p).attempts ≤ (Prod.snd p).max_attempts

/-! ### Basic lemmas about the table -/

theorem findTask_mem {i : Nat} {t : Task} :
    ∀ {s : Store}, findTask i s = some t → (i, t) ∈ s := by
  intro s
  induction s with
  | nil => intro h; simp [findTask] at h
  | cons p rest ih =>
    obtain ⟨j, u⟩ := p
    intro h
    simp only [findTask] at h
    by_cases hj : j = i
    · subst hj
      simp at h
      subst h
      exact List.mem_cons_self _ _
    · simp [hj] at h
      exact List.mem_cons_of_mem _ (ih h)

theorem findTask_setTask_self (i : Nat) (t' : Task) (s : Store) :
    findTask i (setTask i t' s) = (findTask i s).map (fun _ => t') := by
  induction s with
  | nil => rfl
  | cons p rest ih =>
    obtain ⟨j, u⟩ := p
    by_cases hj : j = i
    · simp [setTask, findTask, hj]
    · simp only [setTask, findTask, if_neg hj]
      exact ih

theorem findTask_setTask_ne {j i : Nat} (hne : j ≠ i) (t' : Task) (s : Store) :
    findTask j (setTask i t' s) = findTask j s := by
  induction s with
  | nil => rfl
  | cons p rest ih =>
    obtain ⟨k, u⟩ := p
    by_cases hk : k = i
    · have hkj : k ≠ j := fun h => hne (h ▸ hk)
      simp only [setTask, findTask, if_pos hk, if_neg hkj]
      exact ih
    · by_cases hkj : k = j
      · subst hkj
        simp [setTask, findTask, hne]
      · simp only [setTask, findTask, if_neg hk, if_neg hkj]
        exact ih

theorem mem_setTask {p : Nat × Task} {i : Nat} {t' : Task} :
    ∀ {s : Store}, p ∈ setTask i t' s → p ∈ s ∨ p.2 = t' := by
  intro s
  induction s with
  | nil => intro h; simp [setTask] at h
  | cons q rest ih =>
    obtain ⟨k, u⟩ := q
    intro h
    by_cases hk : k = i
    · simp only [setTask, if_pos hk] at h
      rcases List.mem_cons.mp h with rfl | h2
      · exact Or.inr rfl
      · rcases ih h2 with h3 | h3
        · exact Or.inl (List.mem_cons_of_mem _ h3)
        · exact Or.inr h3
    · simp only [setTask, if_neg hk] at h
      rcases List.mem_cons.mp h with rfl | h2
      · exact Or.inl (List.mem_cons_self _ _)
      · rcases ih h2 with h3 | h3
        · exact Or.inl (List.mem_cons_of_mem _ h3)
        · exact Or.inr h3

theorem ids_setTask (i : Nat) (t' : Task) (s : Store) :
    ids (setTask i t' s) = ids s := by
  induction s with
  | nil => rfl
  | cons p rest ih =>
    obtain ⟨k, u⟩ := p
    by_cases hk : k = i
    · simp only [setTask, if_pos hk, ids, List.map_cons]
      exact congrArg _ ih
    · simp only [setTask, if_neg hk, ids, List.map_cons]
      exact congrArg _ ih

theorem findTask_mapRows (h : Task → Task) (i : Nat) (s : Store) :
    findTask i (mapRows h s) = (findTask i s).map h := by
  induction s with
  | nil => rfl
  | cons p rest ih =>
    obtain ⟨k, u⟩ := p
    by_cases hk : k = i
    · simp [mapRows, findTask, hk]
    · simp only [mapRows, List.map_cons, findTask, if_neg hk]
      exact ih

theorem ids_mapRows (h : Task → Task) (s : Store) :
    ids (mapRows h s) = ids s := by
  induction s with
  | nil => rfl
  | cons p rest ih =>
    simp only [mapRows, List.map_cons, ids]
    exact congrArg _ ih

theorem attInv_setTask {s : Store} {t' : Task} (i : Nat) (hs : AttInv s)
    (ht : t'.attempts ≤ t'.max_attempts) : AttInv (setTask i t' s) := by
  intro p hp
  rcases mem_setTask hp with h | h
  · exact hs p h
  · rw [h]; exact ht

theorem attInv_mapRows {s : Store} {h : Task → Task}
    (hpres : ∀ t : Task, t.attempts ≤ t.max_attempts →
      (h t).attempts ≤ (h t).max_attempts)
    (hs : AttInv s) : AttInv (mapRows h s) := by
  intro p hp
  simp only [mapRows, List.mem_map] at hp
  obtain ⟨q, hq, hfq⟩ := hp
  subst hfq
  exact hpres q.2 (hs q hq)

/-! ### Lemmas about eligibility and claiming -/

theorem eligible_pending {now : Nat} {t : Task} (h : eligible now t = true) :
    t.status = Status.pending := by
  simp only [eligible, Bool.and_eq_true, decide_eq_true_eq] at h
  exact h.1.1

theorem eligible_not_expired {now : Nat} {t : Task}
    (h : eligible now t = true) : expired now t = false := by
  simp only [eligible, Bool.and_eq_true, Bool.not_eq_true'] at h
  exact h.2

theorem expired_claimed (now now' : Nat) (t : Task) :
    expired now (claimed now' t) = expired now t := rfl

theorem claimRow_eq_none {now id : Nat} {s : Store}
    (hf : findTask id s = none) : claimRow now id s = (false, s) := by
  simp [claimRow, hf]

theorem claimRow_eq_pos {now id : Nat} {s : Store} {t : Task}
    (hf : findTask id s = some t) (he : eligible now t = true) :
    claimRow now id s = (true, setTask id (claimed now t) s) := by
  simp [claimRow, hf, he]

theorem claimRow_eq_neg {now id : Nat} {s : Store} {t : Task}
    (hf : findTask id s = some t) (he : eligible now t = false) :
    claimRow now id s = (false, s) := by
  simp [claimRow, hf, he]

theorem claimRow_fst_true {now id : Nat} {s : Store}
    (h : (claimRow now id s).1 = true) :
    ∃ t, findTask id s = some t ∧ eligible now t = true := by
  cases hf : findTask id s with
  | none => rw [claimRow_eq_none hf] at h; exact absurd h (by simp)
  | some t =>
    cases he : eligible now t with
    | false => rw [claimRow_eq_neg hf he] at h; exact absurd h (by simp)
    | true => exact ⟨t, rfl, he⟩

theorem claimRow_snd_lookup {now id j : Nat} {s : Store} {t' : Task}
    (h : findTask j (claimRow now id s).2 = some t') :
    findTask j s = some t' ∨ (j = id ∧ t'.status = Status.processing) := by
  cases hf : findTask id s with
  | none => rw [claimRow_eq_none hf] at h; exact Or.inl h
  | some t =>
    cases he : eligible now t with
    | false => rw [claimRow_eq_neg hf he] at h; exact Or.inl h
    | true =>
      rw [claimRow_eq_pos hf he] at h
      by_cases hj : j = id
      · subst hj
        rw [findTask_setTask_self, hf] at h
        simp at h
        exact Or.inr ⟨rfl, by rw [← h]; rfl⟩
      · rw [findTask_setTask_ne hj] at h
        exact Or.inl h

/-- A row that can no longer be claimed: absent, or not pending. -/
def NotClaimable (id : Nat) (s : Store) : Prop :=
  ∀ t, findTask id s = some t → t.status ≠ Status.pending

theorem notClaimable_claimRow_false {now id : Nat} {s : Store}
    (h : NotClaimable id s) : (claimRow now id s).1 = false := by
  cases hb : (claimRow now id s).1 with
  | false => rfl
  | true =>
    obtain ⟨t, hf, he⟩ := claimRow_fst_true hb
    exact absurd (eligible_pending he) (h t hf)

theorem notClaimable_claimRow {now id j : Nat} {s : Store}
    (h : NotClaimable id s) : NotClaimable id (claimRow now j s).2 := by
  intro t' hf'
  rcases claimRow_snd_lookup hf' with hold | ⟨_, hp⟩
  · exact h t' hold
  · rw [hp]; simp

theorem claimRow_notClaimable {now id : Nat} {s : Store}
    (h : (claimRow now id s).1 = true) :
    NotClaimable id (claimRow now id s).2 := by
  obtain ⟨t, hf, he⟩ := claimRow_fst_true h
  rw [claimRow_eq_pos hf he]
  intro t' hf'
  rw [findTask_setTask_self, hf] at hf'
  simp at hf'
  rw [← hf']
  simp [claimed]

/-! ### Lemmas about the atomic batch claim -/

theorem claimBatch_fst_mem {now : Nat} {p : Nat × Task} :
    ∀ {limit : Nat} {s : Store}, p ∈ (claimBatch now limit s).1 →
      ∃ q ∈ s, eligible now q.2 = true ∧ p = (q.1, claimed now q.2) := by
  intro limit s
  induction s generalizing limit with
  | nil =>
    intro h
    cases limit <;> simp [claimBatch] at h
  | cons q rest ih =>
    obtain ⟨i, t⟩ := q
    intro h
    cases limit with
    | zero => simp [claimBatch] at h
    | succ l =>
      by_cases he : eligible now t = true
      · simp only [claimBatch, he, if_true] at h
        rcases List.mem_cons.mp h with rfl | h2
        · exact ⟨(i, t), List.mem_cons_self _ _, he, rfl⟩
        · obtain ⟨q, hq, hqe, hqp⟩ := ih h2
          exact ⟨q, List.mem_cons_of_mem _ hq, hqe, hqp⟩
      · simp only [claimBatch, he, if_false, Bool.false_eq_true] at h
        obtain ⟨q, hq, hqe, hqp⟩ := ih h
        exact ⟨q, List.mem_cons_of_mem _ hq, hqe, hqp⟩

theorem claimBatch_snd_mem {now : Nat} {p : Nat × Task} :
    ∀ {limit : Nat} {s : Store}, p ∈ (claimBatch now limit s).2 →
      p ∈ s ∨ ∃ q ∈ s, p = (q.1, claimed now q.2) := by
  intro limit s
  induction s generalizing limit with
  | nil =>
    intro h
    cases limit <;> simp [claimBatch] at h
  | cons q rest ih =>
    obtain ⟨i, t⟩ := q
    intro h
    cases limit with
    | zero =>
      simp only [claimBatch] at h
      exact Or.inl h
    | succ l =>
      by_cases he : eligible now t = true
      · simp only [claimBatch, he, if_true] at h
        rcases List.mem_cons.mp h with rfl | h2
        · exact Or.inr ⟨(i, t), List.mem_cons_self _ _, rfl⟩
        · rcases ih h2 with h3 | ⟨q, hq, hqp⟩
          · exact Or.inl (List.mem_cons_of_mem _ h3)
          · exact Or.inr ⟨q, List.mem_cons_of_mem _ hq, hqp⟩
      · simp only [claimBatch, he, if_false, Bool.false_eq_true] at h
        rcases List.mem_cons.mp h with rfl | h2
        · exact Or.inl (List.mem_cons_self _ _)
        · rcases ih h2 with h3 | ⟨q, hq, hqp⟩
          · exact Or.inl (List.mem_cons_of_mem _ h3)
          · exact Or.inr ⟨q, List.mem_cons_of_mem _ hq, hqp⟩

theorem ids_claimBatch (now : Nat) :
    ∀ (limit : Nat) (s : Store), ids (claimBatch now limit s).2 = ids s := by
  intro limit s
  induction s generalizing limit with
  | nil => cases limit <;> rfl
  | cons q rest ih =>
    obtain ⟨i, t⟩ := q
    cases limit with
    | zero => rfl
    | succ l =>
      by_cases he : eligible now t = true
      · simp only [claimBatch, he, if_true, ids, List.map_cons]
        exact congrArg _ (ih l)
      · simp only [claimBatch, he, if_false, Bool.false_eq_true, ids,
          List.map_cons]
        exact congrArg _ (ih (l + 1))

/-! ### Lemmas about interleaved claim traces -/

theorem notClaimable_runTrace {now id : Nat} :
    ∀ (steps : List (Bool × Nat)) (s : Store), NotClaimable id s →
      id ∉ (runTrace now steps s).1 ∧ id ∉ (runTrace now steps s).2.1 := by
  intro steps
  induction steps with
  | nil => intro s _; simp [runTrace]
  | cons step rest ih =>
    intro s h
    obtain ⟨w, j⟩ := step
    have hres := ih (claimRow now j s).2 (notClaimable_claimRow h)
    cases hb : (claimRow now j s).1 with
    | false =>
      simp only [runTrace, hb, Bool.false_eq_true, if_false]
      exact hres
    | true =>
      have hji : j ≠ id := by
        intro hji
        subst hji
        rw [notClaimable_claimRow_false h] at hb
        exact Bool.false_ne_true hb
      cases w with
      | false =>
        simp only [runTrace, hb, if_true, Bool.false_eq_true, if_false]
        refine ⟨fun hc => ?_, hres.2⟩
        rcases List.mem_cons.mp hc with rfl | hc2
        · exact hji rfl
        · exact hres.1 hc2
      | true =>
        simp only [runTrace, hb, if_true]
        refine ⟨hres.1, fun hc => ?_⟩
        rcases List.mem_cons.mp hc with rfl | hc2
        · exact hji rfl
        · exact hres.2 hc2

/-! ### The attempts budget invariant -/

theorem sweepTask_budget (now : Nat) (t : Task) :
    (sweepTask now t).attempts = t.attempts ∧
      (sweepTask now t).max_attempts = t.max_attempts := by
  unfold sweepTask
  split <;> exact ⟨rfl, rfl⟩

theorem reclaimTask_budget (now threshold : Nat) (t : Task) :
    (reclaimTask now threshold t).attempts = t.attempts ∧
      (reclaimTask now threshold t).max_attempts = t.max_attempts := by
  unfold reclaimTask
  split <;> exact ⟨rfl, rfl⟩

theorem clearLogRef_budget (logId : Nat) (t : Task) :
    (clearLogRef logId t).attempts = t.attempts ∧
      (clearLogRef logId t).max_attempts = t.max_attempts := by
  unfold clearLogRef
  split <;> exact ⟨rfl, rfl⟩

theorem trigger_budget (t : Task) :
    (set_expires_at_trigger t).attempts = t.attempts ∧
      (set_expires_at_trigger t).max_attempts = t.max_attempts := by
  unfold set_expires_at_trigger
  cases t.expires_at <;> exact ⟨rfl, rfl⟩

theorem reachable_attInv {s : Store} (h : Reachable s) : AttInv s := by
  induction h with
  | empty => intro p hp; simp at hp
  | enqueue id d now _ ih =>
    intro p hp
    rcases List.mem_cons.mp hp with rfl | hmem
    · show (set_expires_at_trigger (insertRow d now)).attempts ≤ _
      rw [(trigger_budget _).1]
      exact Nat.zero_le _
    · exact ih p hmem
  | claimBatch now limit _ ih =>
    intro p hp
    rcases claimBatch_snd_mem hp with hmem | ⟨q, hq, rfl⟩
    · exact ih p hmem
    · exact ih q hq
  | claimRow now id _ ih =>
    rename_i s' _
    cases hf : findTask id s' with
    | none => rw [claimRow_eq_none hf]; exact ih
    | some t =>
      cases he : eligible now t with
      | false => rw [claimRow_eq_neg hf he]; exact ih
      | true =>
        rw [claimRow_eq_pos hf he]
        exact attInv_setTask id ih (ih (id, t) (findTask_mem hf))
  | ackSuccess id now _ ih =>
    rename_i s' _
    unfold ackSuccess
    cases hf : findTask id s' with
    | none => exact ih
    | some t =>
      by_cases hst : t.status = Status.processing
      · simp only [hst, if_true]
        exact attInv_setTask id ih (ih (id, t) (findTask_mem hf))
      · simp only [hst, if_false]
        exact ih
  | ackFailure id err cls now _ ih =>
    rename_i s' _
    unfold ackFailure
    cases hf : findTask id s' with
    | none => exact ih
    | some t =>
      by_cases hst : t.status = Status.processing
      · simp only [hst, if_true]
        by_cases hdead : cls = Classification.permanent ∨
            t.max_attempts ≤ t.attempts + 1
        · simp only [hdead, if_true]
          exact attInv_setTask id ih (ih (id, t) (findTask_mem hf))
        · simp only [hdead, if_false]
          apply attInv_setTask id ih
          show t.attempts + 1 ≤ t.max_attempts
          have : ¬ t.max_attempts ≤ t.attempts + 1 := fun hc => hdead (Or.inr hc)
          omega
      · simp only [hst, if_false]
        exact ih
  | sweepExpired now _ ih =>
    exact attInv_mapRows
      (fun t ht => by rw [(sweepTask_budget now t).1, (sweepTask_budget now t).2]; exact ht) ih
  | reclaimStale now threshold _ ih =>
    exact attInv_mapRows
      (fun t ht => by
        rw [(reclaimTask_budget now threshold t).1,
          (reclaimTask_budget now threshold t).2]
        exact ht) ih
  | onDeleteLogEntry logId _ ih =>
    exact attInv_mapRows
      (fun t ht => by
        rw [(clearLogRef_budget logId t).1, (clearLogRef_budget logId t).2]
        exact ht) ih

/-! ### Computation lemmas for the acknowledge operations -/

theorem ackFailure_dead_eq {s : Store} {id : Nat} {t : Task} {err : String}
    {cls : Classification} {now : Nat}
    (hf : findTask id s = some t) (hst : t.status = Status.processing)
    (hdead : cls = Classification.permanent ∨
      t.max_attempts ≤ t.attempts + 1) :
    findTask id (ackFailure id err cls now s) =
      some { t with status := Status.dead, last_error := some err,
                    updated_at := now } := by
  unfold ackFailure
  rw [hf]
  simp only [hst, if_true, hdead, if_pos]
  rw [findTask_setTask_self, hf]
  rfl

theorem ackFailure_retry_eq {s : Store} {id : Nat} {t : Task} {err : String}
    {cls : Classification} {now : Nat}
    (hf : findTask id s = some t) (hst : t.status = Status.processing)
    (hperm : cls ≠ Classification.permanent)
    (hlt : t.attempts + 1 < t.max_attempts) :
    findTask id (ackFailure id err cls now s) =
      some { t with attempts := t.attempts + 1,
                    next_attempt_at := now + backoff (t.attempts + 1),
                    status := Status.pending, last_error := some err,
                    updated_at := now } := by
  have hdead : ¬(cls = Classification.permanent ∨
      t.max_attempts ≤ t.attempts + 1) := by
    rintro (hc | hc)
    · exact hperm hc
    · omega
  unfold ackFailure
  rw [hf]
  simp only [hst, if_true, hdead, if_false]
  rw [findTask_setTask_self, hf]
  rfl

theorem ids_claimRow (now rid : Nat) (s : Store) :
    ids (claimRow now rid s).2 = ids s := by
  cases hf : findTask rid s with
  | none => rw [claimRow_eq_none hf]
  | some t =>
    cases he : eligible now t with
    | false => rw [claimRow_eq_neg hf he]
    | true => rw [claimRow_eq_pos hf he]; exact ids_setTask _ _ _

theorem ids_ackSuccess (aid now : Nat) (s : Store) :
    ids (ackSuccess aid now s) = ids s := by
  unfold ackSuccess
  cases hf : findTask aid s with
  | none => rfl
  | some t =>
    by_cases hst : t.status = Status.processing
    · simp only [hst, if_true]
      exact ids_setTask _ _ _
    · simp only [hst, if_false]

theorem ids_ackFailure (aid : Nat) (err : String) (cls : Classification)
    (now : Nat) (s : Store) : ids (ackFailure aid err cls now s) = ids s := by
  unfold ackFailure
  cases hf : findTask aid s with
  | none => rfl
  | some t =>
    by_cases hst : t.status = Status.processing
    · simp only [hst, if_true]
      split
      · exact ids_setTask _ _ _
      · exact ids_setTask _ _ _
    · simp only [hst, if_false]

theorem claimBatch_not_expired {now limit : Nat} {s : Store} {p : Nat × Task}
    (hp : p ∈ (claimBatch now limit s).1) : expired now p.2 = false := by
  obtain ⟨q, _, he, rfl⟩ := claimBatch_fst_mem hp
  show expired now (claimed now q.2) = false
  rw [expired_claimed]
  exact eligible_not_expired he

/-! ### Concrete fixtures -/

/-- A draft leaving every defaultable column to its default. -/
def draftA : Draft :=
  { notification_log_id := some 3
    user_id := 7
    notification_type := "stream_online"
    content_json := "payload"
    message := "live now"
    destination_type := "telegram"
    destination_id := "42"
    webhook_url := none
    max_attempts := none
    next_attempt_at := none
    expires_at := none }

/-- A draft with a retry budget of one attempt and an explicit deadline. -/
def draftB : Draft :=
  { notification_log_id := none
    user_id := 8
    notification_type := "title_change"
    content_json := "payload"
    message := "new title"
    destination_type := "discord"
    destination_id := "77"
    webhook_url := some "hook"
    max_attempts := some 1
    next_attempt_at := none
    expires_at := some 1000 }

/-- A draft whose explicit deadline is already close. -/
def draftC : Draft :=
  { notification_log_id := none
    user_id := 9
    notification_type := "stream_offline"
    content_json := "payload"
    message := "offline"
    destination_type := "telegram"
    destination_id := "42"
    webhook_url := none
    max_attempts := none
    next_attempt_at := none
    expires_at := some 50 }

/-- One freshly enqueued task (id 1, enqueued at time 0). -/
def storeA : Store := enqueue 1 draftA 0 []

/-- `storeA` after a worker claimed task 1 at time 10. -/
def storeP : Store := (claimRow 10 1 storeA).2

/-- A task with `max_attempts = 1`, claimed at time 6. -/
def storeB : Store := (claimRow 6 2 (enqueue 2 draftB 5 [])).2

/-- One task whose deadline (50) will have passed at time 100. -/
def storeC : Store := enqueue 3 draftC 0 []

/-! ### Claim theorems -/

/-- C1: for every pair of ClaimBatch calls executing concurrently against
the same Queue Store — modelled as an arbitrary interleaving of their
per-row compare-and-swap claim steps — and every task id, the id appears
in at most one of the two result sets: a claim transitions a row from
pending to processing only if the row is still pending at update time, so
the two claimers' result sets are disjoint. -/
theorem claimBatch_exclusive (now : Nat) (steps : List (Bool × Nat))
    (s : Store) (id : Nat) (h1 : id ∈ (runTrace now steps s).1) :
    id ∉ (runTrace now steps s).2.1 := by
  induction steps generalizing s with
  | nil => simp [runTrace] at h1
  | cons step rest ih =>
    obtain ⟨w, j⟩ := step
    cases hb : (claimRow now j s).1 with
    | false =>
      simp only [runTrace, hb, Bool.false_eq_true, if_false] at h1 ⊢
      exact ih _ h1
    | true =>
      have havoid := @notClaimable_runTrace now j rest (claimRow now j s).2
        (claimRow_notClaimable hb)
      cases w with
      | false =>
        simp only [runTrace, hb, if_true, Bool.false_eq_true, if_false]
          at h1 ⊢
        rcases List.mem_cons.mp h1 with rfl | h2
        · exact havoid.2
        · exact ih _ h2
      | true =>
        simp only [runTrace, hb, if_true] at h1 ⊢
        intro hc
        rcases List.mem_cons.mp hc with rfl | hc2
        · exact havoid.1 h1
        · exact ih _ h1 hc2

/-- Witness for C1: two workers race for the single pending due task of
`storeA`; the first one's compare-and-swap wins, the second's result
excludes the task. -/
theorem claimBatch_exclusive_witness :
    1 ∈ (runTrace 10 [(false, 1), (true, 1)] storeA).1 ∧
      1 ∉ (runTrace 10 [(false, 1), (true, 1)] storeA).2.1 :=
  ⟨by decide, claimBatch_exclusive 10 [(false, 1), (true, 1)] storeA 1
    (by decide)⟩

/-- C2: a task whose `expires_at` has passed at `now` is never returned by
`ClaimBatch(now, limit)` (hence never handed to the Dispatcher by a worker
tick), and a pending or processing task past its deadline is swept directly
to dead with the distinguishing reason "expired", with no dispatch
attempt. -/
theorem expired_never_dispatched :
    (∀ (now limit : Nat) (s : Store) (p : Nat × Task),
      p ∈ (claimBatch now limit s).1 → expired now p.2 = false) ∧
    (∀ (now threshold limit : Nat) (s : Store) (p : Nat × Task),
      p ∈ tickDispatches now threshold limit s → expired now p.2 = false) ∧
    (∀ (now : Nat) (s : Store) (i : Nat) (t : Task),
      findTask i s = some t →
      (t.status = Status.pending ∨ t.status = Status.processing) →
      expired now t = true →
      findTask i (sweepExpired now s) =
        some { t with status := Status.dead, last_error := some "expired",
                      updated_at := now }) := by
  refine ⟨fun _ _ _ _ hp => claimBatch_not_expired hp,
    fun _ _ _ _ _ hp => claimBatch_not_expired hp, ?_⟩
  intro now s i t hf hst hexp
  unfold sweepExpired
  rw [findTask_mapRows, hf]
  show some (sweepTask now t) = _
  unfold sweepTask
  rw [if_pos ⟨hst, hexp⟩]

/-- Witness for C2: the task of `storeC` (deadline 50, pending) is, at time
100, swept directly to dead with reason "expired". -/
theorem expired_never_dispatched_witness :
    findTask 3 (sweepExpired 100 storeC) =
      some { set_expires_at_trigger (insertRow draftC 0) with
             status := Status.dead, last_error := some "expired",
             updated_at := 100 } :=
  expired_never_dispatched.2.2 100 storeC 3
    (set_expires_at_trigger (insertRow draftC 0)) rfl (Or.inl rfl) rfl

/-- C3: `AckFailure(id, error, classification)` on a processing task: if
the classification is permanent, or attempts+1 ≥ max_attempts, the task
becomes dead (recording the error); otherwise attempts is incremented,
`next_attempt_at` becomes now + Backoff at the incremented attempts, and
the task returns to pending. -/
theorem ackFailure_contract (s : Store) (id : Nat) {t : Task} (err : String)
    (cls : Classification) (now : Nat)
    (hf : findTask id s = some t) (hst : t.status = Status.processing) :
    ((cls = Classification.permanent ∨ t.max_attempts ≤ t.attempts + 1) →
      findTask id (ackFailure id err cls now s) =
        some { t with status := Status.dead, last_error := some err,
                      updated_at := now }) ∧
    (cls ≠ Classification.permanent → t.attempts + 1 < t.max_attempts →
      findTask id (ackFailure id err cls now s) =
        some { t with attempts := t.attempts + 1,
                      next_attempt_at := now + backoff (t.attempts + 1),
                      status := Status.pending, last_error := some err,
                      updated_at := now }) :=
  ⟨fun hdead => ackFailure_dead_eq hf hst hdead,
   fun hperm hlt => ackFailure_retry_eq hf hst hperm hlt⟩

/-- Witness for C3, Scenario D: the processing task of `storeP` has
attempts = 0 of max_attempts = 5; a PermanentFailure makes it dead
immediately. -/
theorem ackFailure_contract_witness :
    findTask 1 (ackFailure 1 "gone" Classification.permanent 20 storeP) =
      some { claimed 10 (set_expires_at_trigger (insertRow draftA 0)) with
             status := Status.dead, last_error := some "gone",
             updated_at := 20 } :=
  (ackFailure_contract storeP 1 "gone" Classification.permanent 20 rfl
    rfl).1 (Or.inl rfl)

/-- C4: in every store reachable through the Queue Store operations, every
row satisfies attempts ≤ max_attempts; and a failed delivery whose
increment would reach max_attempts forces the row's status to dead. -/
theorem attempts_within_budget (s : Store) (hs : Reachable s) :
    (∀ p ∈ s, (Prod.snd p).attempts ≤ (Prod.snd p).max_attempts) ∧
    (∀ (id : Nat) (t t' : Task) (err : String) (cls : Classification)
      (now : Nat), findTask id s = some t →
      t.status = Status.processing → t.max_attempts ≤ t.attempts + 1 →
      findTask id (ackFailure id err cls now s) = some t' →
      t'.status = Status.dead) := by
  refine ⟨reachable_attInv hs, ?_⟩
  intro id t t' err cls now hf hst hmax hf'
  rw [ackFailure_dead_eq hf hst (Or.inr hmax)] at hf'
  cases hf'
  rfl

/-- Witness for C4: in the reachable store `storeB` the claimed task
respects its budget, and a further failure (attempts 0+1 reaching
max_attempts = 1) yields a dead row. -/
theorem attempts_within_budget_witness :
    (claimed 6 (set_expires_at_trigger (insertRow draftB 5))).attempts ≤
      (claimed 6 (set_expires_at_trigger (insertRow draftB 5))).max_attempts ∧
    ({ claimed 6 (set_expires_at_trigger (insertRow draftB 5)) with
       status := Status.dead, last_error := some "boom",
       updated_at := 9 } : Task).status = Status.dead :=
  ⟨(attempts_within_budget storeB
      (Reachable.claimRow 6 2 (Reachable.enqueue 2 draftB 5 Reachable.empty))).1
      (2, claimed 6 (set_expires_at_trigger (insertRow draftB 5)))
      (by decide),
   (attempts_within_budget storeB
      (Reachable.claimRow 6 2 (Reachable.enqueue 2 draftB 5 Reachable.empty))).2
      2 (claimed 6 (set_expires_at_trigger (insertRow draftB 5))) _ "boom"
      Classification.transient 9 rfl rfl (by decide) rfl⟩

/-- C5: a task enqueued with `expires_at` omitted is stored with a non-null
`expires_at` equal to `created_at + default_ttl`, where `default_ttl` is
the single configuration constant (5 minutes, the value the migration's
trigger assigns); a task enqueued with an explicit `expires_at` keeps it
unchanged. -/
theorem enqueue_assigns_default_ttl (id : Nat) (d : Draft) (now : Nat)
    (s : Store) :
    findTask id (enqueue id d now s) =
      some (set_expires_at_trigger (insertRow d now)) ∧
    (d.expires_at = none →
      (set_expires_at_trigger (insertRow d now)).expires_at =
        some ((set_expires_at_trigger (insertRow d now)).created_at +
          default_ttl)) ∧
    (∀ e, d.expires_at = some e →
      (set_expires_at_trigger (insertRow d now)).expires_at = some e) := by
  refine ⟨by simp [enqueue, findTask], ?_, ?_⟩
  · intro h
    simp [set_expires_at_trigger, insertRow, h]
  · intro e h
    simp [set_expires_at_trigger, insertRow, h]

/-- Witness for C5: `draftA` omits `expires_at`; the stored row carries
`created_at + default_ttl`, and it is non-null. -/
theorem enqueue_assigns_default_ttl_witness :
    findTask 1 (enqueue 1 draftA 0 []) =
      some (set_expires_at_trigger (insertRow draftA 0)) ∧
    (set_expires_at_trigger (insertRow draftA 0)).expires_at =
      some ((set_expires_at_trigger (insertRow draftA 0)).created_at +
        default_ttl) :=
  ⟨(enqueue_assigns_default_ttl 1 draftA 0 []).1,
   (enqueue_assigns_default_ttl 1 draftA 0 []).2.1 rfl⟩

/-- C6: on a row inserted with `expires_at` NULL, the after-insert trigger
sets `expires_at` to exactly `created_at` + 5 minutes; the 1-hour value of
the migration's header comment is never the value assigned.  A row with a
non-null `expires_at` is left untouched. -/
theorem trigger_sets_five_minutes (t : Task) :
    (t.expires_at = none →
      set_expires_at_trigger t =
        { t with expires_at := some (t.created_at + 5 * 60) } ∧
      (set_expires_at_trigger t).expires_at ≠
        some (t.created_at + header_comment_ttl)) ∧
    (∀ e, t.expires_at = some e → set_expires_at_trigger t = t) := by
  constructor
  · intro h
    constructor
    · show set_expires_at_trigger t =
        { t with expires_at := some (t.created_at + default_ttl) }
      simp [set_expires_at_trigger, h]
    · simp only [set_expires_at_trigger, h]
      intro hc
      simp only [Option.some.injEq] at hc
      have : default_ttl = header_comment_ttl := by omega
      simp [default_ttl, header_comment_ttl] at this
  · intro e h
    simp [set_expires_at_trigger, h]

/-- Witness for C6: the trigger on the row inserted from `draftA` assigns
`created_at + 300` seconds, not the header comment's hour. -/
theorem trigger_sets_five_minutes_witness :
    set_expires_at_trigger (insertRow draftA 0) =
      { insertRow draftA 0 with
        expires_at := some ((insertRow draftA 0).created_at + 5 * 60) } ∧
    (set_expires_at_trigger (insertRow draftA 0)).expires_at ≠
      some ((insertRow draftA 0).created_at + header_comment_ttl) :=
  (trigger_sets_five_minutes (insertRow draftA 0)).1 rfl

/-- C7: the backoff policy is monotonically non-decreasing in the attempt
count and never exceeds the configured cap. -/
theorem backoff_monotone_bounded :
    (∀ m n, m ≤ n → backoff m ≤ backoff n) ∧
    ∀ n, backoff n ≤ backoff_cap := by
  constructor
  · intro m n h
    unfold backoff
    exact min_le_min
      (Nat.mul_le_mul_left _ (Nat.pow_le_pow_right (by decide) h)) le_rfl
  · intro n
    exact min_le_right _ _

/-- Witness for C7: monotonicity between attempts 1 and 2, and the cap
bound at attempt 9. -/
theorem backoff_monotone_bounded_witness :
    backoff 1 ≤ backoff 2 ∧ backoff 9 ≤ backoff_cap :=
  ⟨backoff_monotone_bounded.1 1 2 (by decide), backoff_monotone_bounded.2 9⟩

/-- C8: every enqueued row is stored with status = pending and
attempts = 0; when the caller supplies no value, `max_attempts` defaults to
5 and `next_attempt_at` defaults to the insertion time. -/
theorem enqueue_row_defaults (id : Nat) (d : Draft) (now : Nat) (s : Store) :
    findTask id (enqueue id d now s) =
      some (set_expires_at_trigger (insertRow d now)) ∧
    (set_expires_at_trigger (insertRow d now)).status = Status.pending ∧
    (set_expires_at_trigger (insertRow d now)).attempts = 0 ∧
    (d.max_attempts = none →
      (set_expires_at_trigger (insertRow d now)).max_attempts = 5) ∧
    (d.next_attempt_at = none →
      (set_expires_at_trigger (insertRow d now)).next_attempt_at = now) := by
  refine ⟨by simp [enqueue, findTask], ?_, ?_, ?_, ?_⟩
  · cases hd : d.expires_at <;>
      simp [set_expires_at_trigger, insertRow, hd]
  · cases hd : d.expires_at <;>
      simp [set_expires_at_trigger, insertRow, hd]
  · intro h
    cases hd : d.expires_at <;>
      simp [set_expires_at_trigger, insertRow, hd, h]
  · intro h
    cases hd : d.expires_at <;>
      simp [set_expires_at_trigger, insertRow, hd, h]

/-- Witness for C8: the row stored for `draftA` (no explicit budget or
schedule) is pending, with attempts 0, max_attempts 5, next_attempt_at the
insertion time 0. -/
theorem enqueue_row_defaults_witness :
    (set_expires_at_trigger (insertRow draftA 0)).status = Status.pending ∧
    (set_expires_at_trigger (insertRow draftA 0)).attempts = 0 ∧
    (set_expires_at_trigger (insertRow draftA 0)).max_attempts = 5 ∧
    (set_expires_at_trigger (insertRow draftA 0)).next_attempt_at = 0 :=
  ⟨(enqueue_row_defaults 1 draftA 0 []).2.1,
   (enqueue_row_defaults 1 draftA 0 []).2.2.1,
   (enqueue_row_defaults 1 draftA 0 []).2.2.2.1 rfl,
   (enqueue_row_defaults 1 draftA 0 []).2.2.2.2 rfl⟩

/-- C9: deleting a notification log entry clears the referencing task's
`notification_log_id` (and only for rows that referenced it) and deletes
nothing: the table keeps the same ids and every other field of the task is
unchanged. -/
theorem log_delete_clears_reference_only (logId : Nat) (s : Store) (i : Nat)
    (t : Task) (hf : findTask i s = some t) :
    ids (onDeleteLogEntry logId s) = ids s ∧
    findTask i (onDeleteLogEntry logId s) = some (clearLogRef logId t) ∧
    (clearLogRef logId t).notification_log_id =
      (if t.notification_log_id = some logId then none
       else t.notification_log_id) ∧
    (clearLogRef logId t).user_id = t.user_id ∧
    (clearLogRef logId t).notification_type = t.notification_type ∧
    (clearLogRef logId t).content_json = t.content_json ∧
    (clearLogRef logId t).message = t.message ∧
    (clearLogRef logId t).destination_type = t.destination_type ∧
    (clearLogRef logId t).destination_id = t.destination_id ∧
    (clearLogRef logId t).webhook_url = t.webhook_url ∧
    (clearLogRef logId t).attempts = t.attempts ∧
    (clearLogRef logId t).max_attempts = t.max_attempts ∧
    (clearLogRef logId t).next_attempt_at = t.next_attempt_at ∧
    (clearLogRef logId t).expires_at = t.expires_at ∧
    (clearLogRef logId t).last_error = t.last_error ∧
    (clearLogRef logId t).status = t.status ∧
    (clearLogRef logId t).created_at = t.created_at ∧
    (clearLogRef logId t).updated_at = t.updated_at := by
  refine ⟨ids_mapRows _ _, ?_, ?_⟩
  · unfold onDeleteLogEntry
    rw [findTask_mapRows, hf]
    rfl
  · unfold clearLogRef
    split <;> simp_all

/-- Witness for C9: deleting log entry 3, referenced by the task of
`storeA`, keeps the row (same ids) and stores the same task with the
reference cleared. -/
theorem log_delete_clears_reference_only_witness :
    ids (onDeleteLogEntry 3 storeA) = ids storeA ∧
    findTask 1 (onDeleteLogEntry 3 storeA) =
      some (clearLogRef 3 (set_expires_at_trigger (insertRow draftA 0))) :=
  ⟨(log_delete_clears_reference_only 3 storeA 1
      (set_expires_at_trigger (insertRow draftA 0)) rfl).1,
   (log_delete_clears_reference_only 3 storeA 1
      (set_expires_at_trigger (insertRow draftA 0)) rfl).2.1⟩

/-- C10: no Queue Store operation deletes a row: every id present in the
table is still present after `Enqueue`, `ClaimBatch` (and its per-row
claim), `AckSuccess`, `AckFailure`, `SweepExpired`, `ReclaimStale`, and
after the foreign-key clearing caused by a log-entry delete. -/
theorem rows_never_deleted (id : Nat) (s : Store) (h : id ∈ ids s) :
    (∀ (nid : Nat) (d : Draft) (now : Nat),
      id ∈ ids (enqueue nid d now s)) ∧
    (∀ now limit, id ∈ ids (claimBatch now limit s).2) ∧
    (∀ now rid, id ∈ ids (claimRow now rid s).2) ∧
    (∀ aid now, id ∈ ids (ackSuccess aid now s)) ∧
    (∀ (aid : Nat) (err : String) (cls : Classification) (now : Nat),
      id ∈ ids (ackFailure aid err cls now s)) ∧
    (∀ now, id ∈ ids (sweepExpired now s)) ∧
    (∀ now threshold, id ∈ ids (reclaimStale now threshold s)) ∧
    (∀ logId, id ∈ ids (onDeleteLogEntry logId s)) := by
  refine ⟨?_, ?_, ?_, ?_, ?_, ?_, ?_, ?_⟩
  · intro nid d now
    simp only [enqueue, ids, List.map_cons]
    exact List.mem_cons_of_mem _ h
  · intro now limit
    rw [ids_claimBatch]
    exact h
  · intro now rid
    rw [ids_claimRow]
    exact h
  · intro aid now
    rw [ids_ackSuccess]
    exact h
  · intro aid err cls now
    rw [ids_ackFailure]
    exact h
  · intro now
    rw [show sweepExpired now s = mapRows (sweepTask now) s from rfl,
      ids_mapRows]
    exact h
  · intro now threshold
    rw [show reclaimStale now threshold s =
      mapRows (reclaimTask now threshold) s from rfl, ids_mapRows]
    exact h
  · intro logId
    rw [show onDeleteLogEntry logId s =
      mapRows (clearLogRef logId) s from rfl, ids_mapRows]
    exact h

/-- Witness for C10: task 1 of `storeA` survives a batch claim and a sweep
long past its deadline. -/
theorem rows_never_deleted_witness :
    1 ∈ ids (claimBatch 10 5 storeA).2 ∧ 1 ∈ ids (sweepExpired 400 storeA) :=
  ⟨(rows_never_deleted 1 storeA (by decide)).2.1 10 5,
   (rows_never_deleted 1 storeA (by decide)).2.2.2.2.2.1 400⟩

end TwitchNotifications
